import Mathlib

/-!
Shallow embedding of the OpenSim control-allocation core:
`CoordinateActuator` (from `src/OpenSim/Actuators/CoordinateActuator.cpp`),
the `PrescribedController` control evaluation
(declared in `src/OpenSim/Simulation/Control/PrescribedController.h`),
and the `SynergyController` / non-negative matrix factorization pipeline
(used in `src/OpenSim/Examples/Moco/example3DWalking/exampleMocoInverse.cpp`).
C++ doubles are modelled as exact rationals; the SimTK state is modelled as
an explicit record of the state-dependent quantities the actuator reads and
writes (control, override flag, override force, cached force).
-/

namespace OpenSimModel

/-- A generalized coordinate of the model: a name (used for resolution by
`CoordinateActuator::setup`) and the mobility index its generalized force
acts on (the slot of `mobilityForces` that `applyGeneralizedForce` adds to). -/
structure Coordinate where
  name : String
  mobilityIndex : Nat
  deriving Repr, DecidableEq

/-- The model context (`Model`): for this core only its `CoordinateSet` is
relevant, an ordered collection of coordinates looked up by name. -/
structure Model where
  coordinates : List Coordinate
  deriving Repr, DecidableEq

/-- The state-dependent quantities of one actuator inside a `SimTK::State`:
`control` is what `getControl(s)` reads, `overrideOn` is `isForceOverriden(s)`,
`overrideForce` is `computeOverrideForce(s)`, and `force` is the per-evaluation
cache written by `setForce(s, f)` and read by `getForce(s)`. -/
structure SimState where
  control : ℚ
  overrideOn : Bool
  overrideForce : ℚ
  force : ℚ
  deriving Repr, DecidableEq

/-- `CoordinateActuator`: the `coordinate` property (textual identity
reference), the `optimal_force` property, the `_model` back-reference
(`none` when not attached to a model context) and the `_coord` pointer
(`none` while unresolved). -/
structure CoordinateActuator where
  coordinateName : String
  optimal_force : ℚ
  model : Option Model
  coord : Option Coordinate
  deriving Repr, DecidableEq

namespace CoordinateActuator

/-- `CoordinateActuator::setOptimalForce`: stores the value in the
`optimal_force` property. The source performs no validation of the argument. -/
def setOptimalForce (a : CoordinateActuator) (v : ℚ) : CoordinateActuator :=
  { a with optimal_force := v }

/-- `CoordinateActuator::getOptimalForce`. -/
def getOptimalForce (a : CoordinateActuator) : ℚ :=
  a.optimal_force

/-- `CoordinateActuator::computeActuation`: `0` when `_model == NULL`,
otherwise `getControl(s) * optimal_force`. -/
def computeActuation (a : CoordinateActuator) (s : SimState) : ℚ :=
  match a.model with
  | none => 0
  | some _ => s.control * a.optimal_force

/-- `CoordinateActuator::getStress`: `fabs(getForce(s) / optimal_force)`. -/
def getStress (a : CoordinateActuator) (s : SimState) : ℚ :=
  |s.force / a.optimal_force|

/-- `CoordinateActuator::isCoordinateValid`: false when `_model == NULL` or
`_coord == NULL`, true otherwise. -/
def isCoordinateValid (a : CoordinateActuator) : Bool :=
  a.model.isSome && a.coord.isSome

end CoordinateActuator

/-- `applyGeneralizedForce`: adds the scalar generalized force into the
mobility-forces vector at the coordinate's mobility index. -/
def applyGeneralizedForce (c : Coordinate) (force : ℚ) (mobilityForces : List ℚ) :
    List ℚ :=
  mobilityForces.set c.mobilityIndex (mobilityForces.getD c.mobilityIndex 0 + force)

/-- Result of one `computeForce` call: the (possibly updated) actuator state,
the body-force and mobility-force vectors, and the diagnostic messages the
call printed (`computeForce` reports an invalid coordinate to `std::cout`
instead of throwing). -/
structure ForceResult where
  state : SimState
  bodyForces : List ℚ
  mobilityForces : List ℚ
  reports : List String
  deriving Repr, DecidableEq

/-- `CoordinateActuator::computeForce`: returns immediately when
`_model == NULL`; otherwise computes the force (override value when the force
is overridden for this state, `computeActuation` otherwise), caches it with
`setForce`, and applies it as a generalized force when the coordinate is
valid; when the coordinate is invalid it reports the condition and applies
nothing. The body-forces vector is never touched by this actuator. -/
def CoordinateActuator.computeForce (a : CoordinateActuator) (s : SimState)
    (bodyForces mobilityForces : List ℚ) : ForceResult :=
  match a.model with
  | none => ⟨s, bodyForces, mobilityForces, []⟩
  | some _ =>
    let force := if s.overrideOn then s.overrideForce else a.computeActuation s
    let s1 := { s with force := force }
    if a.isCoordinateValid then
      ⟨s1, bodyForces,
        applyGeneralizedForce (a.coord.getD ⟨"", 0⟩) s1.force mobilityForces, []⟩
    else
      ⟨s1, bodyForces, mobilityForces,
        ["CoordinateActuator::computeForce  Invalid coordinate "]⟩

/-- Batch evaluation of a list of actuators, each with its own state slice,
threading the shared body-force and mobility-force vectors through the
individual `computeForce` calls and collecting all reports. -/
def computeForceBatch :
    List (CoordinateActuator × SimState) → List ℚ → List ℚ →
      List ℚ × List ℚ × List String
  | [], bodyForces, mobilityForces => (bodyForces, mobilityForces, [])
  | (a, s) :: rest, bodyForces, mobilityForces =>
    let r := a.computeForce s bodyForces mobilityForces
    let rec0 := computeForceBatch rest r.bodyForces r.mobilityForces
    (rec0.1, rec0.2.1, r.reports ++ rec0.2.2)

/-- `CoordinateActuator::setup`: records the model context (base-class
`Actuator::setup`), then looks up the `coordinate` property name in the
model's coordinate set; throws an exception when the name is not found,
otherwise binds `_coord` to the matching coordinate. -/
def CoordinateActuator.setup (a : CoordinateActuator) (m : Model) :
    Except String CoordinateActuator :=
  let coordName := a.coordinateName
  match m.coordinates.find? (fun c => c.name == coordName) with
  | none =>
      Except.error ("CoordinateActuator: Invalid coordinate (" ++ coordName ++
        ") specified in Actuator")
  | some c => Except.ok { a with model := some m, coord := some c }

end OpenSimModel

namespace OpenSimModel

/-- C1: computeActuation returns control * optimalForce when the actuator is
attached to a model context, and 0 when the model reference is null. -/
theorem computeActuation_spec (a : CoordinateActuator) (s : SimState) :
    (a.model.isSome → a.computeActuation s = s.control * a.optimal_force) ∧
    (a.model = none → a.computeActuation s = 0) := by
  constructor
  · intro h
    match ha : a.model with
    | none => rw [ha] at h; simp at h
    | some m => simp [CoordinateActuator.computeActuation, ha]
  · intro h
    simp [CoordinateActuator.computeActuation, h]

/-- C1 witness: the spec's concrete scenario, an attached actuator with
optimalForce 1 and control 1/2 yields computeActuation 1/2; a detached
actuator yields 0. -/
theorem computeActuation_spec_witness :
    (CoordinateActuator.computeActuation
      ⟨"knee", 1, some ⟨[⟨"knee", 0⟩]⟩, some ⟨"knee", 0⟩⟩
      ⟨1/2, false, 0, 0⟩ = 1/2) ∧
    (CoordinateActuator.computeActuation
      ⟨"knee", 1, none, none⟩ ⟨1/2, false, 0, 0⟩ = 0) := by
  refine ⟨?_, ?_⟩
  · have h := (computeActuation_spec
      ⟨"knee", 1, some ⟨[⟨"knee", 0⟩]⟩, some ⟨"knee", 0⟩⟩
      ⟨1/2, false, 0, 0⟩).1 (by decide)
    rw [h]; norm_num
  · exact (computeActuation_spec
      ⟨"knee", 1, none, none⟩ ⟨1/2, false, 0, 0⟩).2 rfl

/-- C2 counterexample: the claim says setOptimalForce(-1) fails with
InvalidParameterError, but the source setter performs no validation: it
stores -1 in the optimal-force property and succeeds. -/
theorem setOptimalForce_no_validation :
    (CoordinateActuator.setOptimalForce
      ⟨"knee", 1, none, none⟩ (-1)).optimal_force = -1 := rfl

/-- C2 amended: setOptimalForce(v) unconditionally stores v in the
optimal-force property, for every v including v <= 0; the setter performs no
validation and cannot fail. -/
theorem setOptimalForce_spec (a : CoordinateActuator) (v : ℚ) :
    (a.setOptimalForce v).optimal_force = v := rfl

/-- C4 counterexample: with optimal_force = -1 (reachable, since the setter
accepts non-positive values) and cached force 1, getStress returns
|1 / (-1)| = 1, while the claim's |force| / optimalForce would be -1. -/
theorem getStress_not_abs_div_for_negative :
    CoordinateActuator.getStress ⟨"knee", -1, none, none⟩ ⟨0, false, 0, 1⟩ = 1 ∧
    |(1 : ℚ)| / (-1 : ℚ) = -1 := by
  constructor
  · show |(1 : ℚ) / (-1 : ℚ)| = 1
    norm_num
  · norm_num

/-- C4 amended: getStress returns |force / optimalForce|; when
optimalForce > 0 this equals |force| / optimalForce, the claim's formula
(the claim's hypothesis "optimalForce nonzero" must be strengthened to
"optimalForce positive"). -/
theorem getStress_spec (a : CoordinateActuator) (s : SimState)
    (h : 0 < a.optimal_force) :
    a.getStress s = |s.force| / a.optimal_force := by
  unfold CoordinateActuator.getStress
  rw [abs_div, abs_of_pos h]

/-- C4 amended witness: optimal_force = 2, cached force = -3 gives
getStress = 3/2. -/
theorem getStress_spec_witness :
    (0 : ℚ) < 2 ∧
    CoordinateActuator.getStress ⟨"knee", 2, none, none⟩ ⟨0, false, 0, -3⟩ =
      |(-3 : ℚ)| / 2 :=
  ⟨by norm_num,
   getStress_spec ⟨"knee", 2, none, none⟩ ⟨0, false, 0, -3⟩ (by norm_num)⟩

/-- C5: setup looks the coordinate name up in the model's coordinate set;
when no coordinate has that name the call fails with an exception, and when
one is found the actuator's coordinate reference is bound to the matching
coordinate (and the model reference to the model). -/
theorem setup_spec (a : CoordinateActuator) (m : Model) :
    (m.coordinates.find? (fun c => c.name == a.coordinateName) = none →
      ∃ msg, a.setup m = Except.error msg) ∧
    (∀ c, m.coordinates.find? (fun c => c.name == a.coordinateName) = some c →
      a.setup m = Except.ok { a with model := some m, coord := some c }) := by
  constructor
  · intro h
    refine ⟨"CoordinateActuator: Invalid coordinate (" ++ a.coordinateName ++
      ") specified in Actuator", ?_⟩
    simp only [CoordinateActuator.setup, h]
  · intro c h
    simp only [CoordinateActuator.setup, h]

/-- C5 witness: in a model with coordinates "hip" and "knee", an actuator
named "knee" resolves and binds to the "knee" coordinate; an actuator named
"ankle" fails with an error. -/
theorem setup_spec_witness :
    ([⟨"hip", 0⟩, ⟨"knee", 1⟩] :
        List Coordinate).find? (fun c => c.name == "knee") = some ⟨"knee", 1⟩ ∧
    CoordinateActuator.setup ⟨"knee", 1, none, none⟩ ⟨[⟨"hip", 0⟩, ⟨"knee", 1⟩]⟩ =
      Except.ok ⟨"knee", 1, some ⟨[⟨"hip", 0⟩, ⟨"knee", 1⟩]⟩, some ⟨"knee", 1⟩⟩ ∧
    (∃ msg, CoordinateActuator.setup ⟨"ankle", 1, none, none⟩
      ⟨[⟨"hip", 0⟩, ⟨"knee", 1⟩]⟩ = Except.error msg) := by
  refine ⟨by decide, ?_, ?_⟩
  · exact (setup_spec ⟨"knee", 1, none, none⟩
      ⟨[⟨"hip", 0⟩, ⟨"knee", 1⟩]⟩).2 ⟨"knee", 1⟩ (by decide)
  · exact (setup_spec ⟨"ankle", 1, none, none⟩
      ⟨[⟨"hip", 0⟩, ⟨"knee", 1⟩]⟩).1 (by decide)

/-- An actuator whose coordinate reference is invalid leaves both shared
force vectors untouched in computeForce. -/
lemma computeForce_invalid_preserves (a : CoordinateActuator) (s : SimState)
    (bf mf : List ℚ) (h : a.isCoordinateValid = false) :
    (a.computeForce s bf mf).bodyForces = bf ∧
    (a.computeForce s bf mf).mobilityForces = mf := by
  match hm : a.model with
  | none => simp [CoordinateActuator.computeForce, hm]
  | some m => simp [CoordinateActuator.computeForce, hm, h]

/-- Dropping an invalid actuator from a batch changes neither the resulting
body forces nor the resulting mobility forces: the invalid actuator
contributes no force to the shared vectors. -/
lemma computeForceBatch_skip_invalid (a : CoordinateActuator) (s : SimState)
    (h : a.isCoordinateValid = false) :
    ∀ (pre post : List (CoordinateActuator × SimState)) (bf mf : List ℚ),
      (computeForceBatch (pre ++ (a, s) :: post) bf mf).1 =
        (computeForceBatch (pre ++ post) bf mf).1 ∧
      (computeForceBatch (pre ++ (a, s) :: post) bf mf).2.1 =
        (computeForceBatch (pre ++ post) bf mf).2.1 := by
  intro pre
  induction pre with
  | nil =>
    intro post bf mf
    have hp := computeForce_invalid_preserves a s bf mf h
    simp only [List.nil_append, computeForceBatch, hp.1, hp.2]
    exact ⟨trivial, trivial⟩
  | cons hd tl ih =>
    intro post bf mf
    simp only [List.cons_append, computeForceBatch]
    exact ih post _ _

/-- C3: when the actuator is attached to a model, computeForce caches the
override value (when overridden) or computeActuation (otherwise) as this
evaluation's force; when the coordinate reference is invalid, the mobility
forces are left unchanged, the condition is reported (a diagnostic message is
emitted, nothing is thrown), and removing the invalid actuator from any batch
does not change the batch's resulting mobility forces — the other actuators
are evaluated as usual. -/
theorem computeForce_spec (a : CoordinateActuator) (s : SimState)
    (bf mf : List ℚ) (hm : a.model.isSome) :
    (a.computeForce s bf mf).state.force =
      (if s.overrideOn then s.overrideForce else a.computeActuation s) ∧
    (a.isCoordinateValid = false →
      (a.computeForce s bf mf).mobilityForces = mf ∧
      (a.computeForce s bf mf).reports ≠ [] ∧
      ∀ (pre post : List (CoordinateActuator × SimState)),
        (computeForceBatch (pre ++ (a, s) :: post) bf mf).2.1 =
          (computeForceBatch (pre ++ post) bf mf).2.1) := by
  obtain ⟨m, hme⟩ := Option.isSome_iff_exists.mp hm
  constructor
  · by_cases hv : a.isCoordinateValid
    · simp [CoordinateActuator.computeForce, hme, hv]
    · simp [CoordinateActuator.computeForce, hme, hv]
  · intro hv
    refine ⟨?_, ?_, ?_⟩
    · exact (computeForce_invalid_preserves a s bf mf hv).2
    · simp [CoordinateActuator.computeForce, hme, hv]
    · intro pre post
      exact (computeForceBatch_skip_invalid a s hv pre post bf mf).2

/-- C3 witness: an attached actuator with an unresolved coordinate and
optimal force 2, control 1/2 caches force 1, leaves the mobility forces
unchanged, reports, and a two-actuator batch yields the same mobility forces
with or without it. -/
theorem computeForce_spec_witness :
    (CoordinateActuator.computeForce ⟨"knee", 2, some ⟨[⟨"knee", 0⟩]⟩, none⟩
        ⟨1/2, false, 0, 0⟩ [] [0]).state.force = 1 ∧
    (CoordinateActuator.computeForce ⟨"knee", 2, some ⟨[⟨"knee", 0⟩]⟩, none⟩
        ⟨1/2, false, 0, 0⟩ [] [0]).mobilityForces = [0] ∧
    (CoordinateActuator.computeForce ⟨"knee", 2, some ⟨[⟨"knee", 0⟩]⟩, none⟩
        ⟨1/2, false, 0, 0⟩ [] [0]).reports ≠ [] ∧
    (computeForceBatch
        ([(⟨"hip", 3, some ⟨[⟨"hip", 0⟩]⟩, some ⟨"hip", 0⟩⟩, ⟨1, false, 0, 0⟩)] ++
          (⟨"knee", 2, some ⟨[⟨"knee", 0⟩]⟩, none⟩, ⟨1/2, false, 0, 0⟩) :: [])
        [] [0]).2.1 =
      (computeForceBatch
        ([(⟨"hip", 3, some ⟨[⟨"hip", 0⟩]⟩, some ⟨"hip", 0⟩⟩, ⟨1, false, 0, 0⟩)] ++ [])
        [] [0]).2.1 := by
  have h := computeForce_spec ⟨"knee", 2, some ⟨[⟨"knee", 0⟩]⟩, none⟩
    ⟨1/2, false, 0, 0⟩ [] [0] (by decide)
  refine ⟨?_, ?_, ?_, ?_⟩
  · rw [h.1]; norm_num [CoordinateActuator.computeActuation]
  · exact (h.2 (by decide)).1
  · exact (h.2 (by decide)).2.1
  · exact (h.2 (by decide)).2.2
      [(⟨"hip", 3, some ⟨[⟨"hip", 0⟩]⟩, some ⟨"hip", 0⟩⟩, ⟨1, false, 0, 0⟩)] []

/-- C10: when the model reference is null, computeForce returns immediately:
the state (including the force cache) and both force vectors come back
exactly as given and nothing is reported; by contrast, when a model is
attached but the coordinate is unresolved, the computed force is still cached
via setForce even though the application to the mobility forces is skipped. -/
theorem computeForce_null_model_spec (a : CoordinateActuator) (s : SimState)
    (bf mf : List ℚ) :
    (a.model = none → a.computeForce s bf mf = ⟨s, bf, mf, []⟩) ∧
    (a.model.isSome → a.coord = none →
      (a.computeForce s bf mf).state.force =
        (if s.overrideOn then s.overrideForce else a.computeActuation s) ∧
      (a.computeForce s bf mf).mobilityForces = mf) := by
  constructor
  · intro h
    simp [CoordinateActuator.computeForce, h]
  · intro hm hc
    obtain ⟨m, hme⟩ := Option.isSome_iff_exists.mp hm
    have hv : a.isCoordinateValid = false := by
      simp [CoordinateActuator.isCoordinateValid, hc]
    constructor
    · simp [CoordinateActuator.computeForce, hme, hv]
    · simp [CoordinateActuator.computeForce, hme, hv]

/-- C10 witness: a detached actuator passes state and force vectors through
unchanged; the same actuator attached with an unresolved coordinate caches
force 1 while leaving the mobility forces unchanged. -/
theorem computeForce_null_model_spec_witness :
    CoordinateActuator.computeForce ⟨"knee", 2, none, none⟩
        ⟨1/2, false, 0, 7⟩ [5] [0] = ⟨⟨1/2, false, 0, 7⟩, [5], [0], []⟩ ∧
    (CoordinateActuator.computeForce ⟨"knee", 2, some ⟨[⟨"knee", 0⟩]⟩, none⟩
        ⟨1/2, false, 0, 7⟩ [5] [0]).state.force = 1 ∧
    (CoordinateActuator.computeForce ⟨"knee", 2, some ⟨[⟨"knee", 0⟩]⟩, none⟩
        ⟨1/2, false, 0, 7⟩ [5] [0]).mobilityForces = [0] := by
  refine ⟨?_, ?_, ?_⟩
  · exact (computeForce_null_model_spec ⟨"knee", 2, none, none⟩
      ⟨1/2, false, 0, 7⟩ [5] [0]).1 rfl
  · have h := ((computeForce_null_model_spec ⟨"knee", 2, some ⟨[⟨"knee", 0⟩]⟩, none⟩
      ⟨1/2, false, 0, 7⟩ [5] [0]).2 (by decide) rfl).1
    rw [h]; norm_num [CoordinateActuator.computeActuation]
  · exact ((computeForce_null_model_spec ⟨"knee", 2, some ⟨[⟨"knee", 0⟩]⟩, none⟩
      ⟨1/2, false, 0, 7⟩ [5] [0]).2 (by decide) rfl).2

/-- Modelled from the spec: the body of `PrescribedController::computeControls`
is not part of the excerpt (only its declaration and documentation in
`PrescribedController.h` are). A prescribed controller holds its controlled
actuators in attachment order (identified by label) and a collection of
(label, control function) pairs assigned via `prescribeControlForActuator`;
control functions map the current time to a control value. -/
structure PrescribedController where
  actuators : List String
  prescribedFunctionPairs : List (String × (ℚ → ℚ))

/-- Modelled from the spec: `prescribeControlForActuator(label, f)` assigns a
prescribed control function for the labelled actuator, replacing and
discarding any previous function for the same actuator. -/
def PrescribedController.prescribeControlForActuator (c : PrescribedController)
    (actuLabel : String) (f : ℚ → ℚ) : PrescribedController :=
  { c with prescribedFunctionPairs :=
      (actuLabel, f) :: c.prescribedFunctionPairs.filter (fun p => p.1 != actuLabel) }

/-- Modelled from the spec: `PrescribedController::computeControls` evaluates
each controlled actuator's assigned function at the current time, in
attachment order; an actuator lacking an assigned function contributes the
control value 0 and the remaining entries are still computed. -/
def PrescribedController.computeControls (c : PrescribedController)
    (time : ℚ) : List ℚ :=
  c.actuators.map (fun label =>
    match c.prescribedFunctionPairs.lookup label with
    | some f => f time
    | none => 0)

/-- C9: computeControls returns one control per controlled actuator, in
attachment order: the entry for an actuator with an assigned function is that
function evaluated at the current time, the entry for an actuator lacking an
assigned function is 0, and the full vector is produced either way (a missing
function does not fail the other entries); moreover an assignment made with
prescribeControlForActuator is the function that computeControls evaluates
for that actuator. -/
theorem computeControls_prescribed_spec (c : PrescribedController) (t : ℚ) :
    (c.computeControls t).length = c.actuators.length ∧
    (∀ (i : ℕ) (label : String), c.actuators[i]? = some label →
      (c.computeControls t)[i]? =
        some (match c.prescribedFunctionPairs.lookup label with
              | some f => f t
              | none => 0)) ∧
    (∀ (label : String) (f : ℚ → ℚ) (i : ℕ), c.actuators[i]? = some label →
      ((c.prescribeControlForActuator label f).computeControls t)[i]? =
        some (f t)) := by
  refine ⟨List.length_map _ _, ?_, ?_⟩
  · intro i label hi
    simp [PrescribedController.computeControls, List.getElem?_map, hi]
  · intro label f i hi
    simp [PrescribedController.computeControls,
      PrescribedController.prescribeControlForActuator, List.getElem?_map, hi,
      List.lookup]

/-- C9 witness: a controller over actuators "a" and "b" where only "a" has a
function (time + 1) produces, at time 2, the full vector with entry 3 for "a"
and entry 0 for the function-less "b"; prescribing a constant 5 for "b" makes
its entry 5. -/
theorem computeControls_prescribed_spec_witness :
    (PrescribedController.computeControls ⟨["a", "b"], [("a", fun t => t + 1)]⟩
        2).length = 2 ∧
    (PrescribedController.computeControls ⟨["a", "b"], [("a", fun t => t + 1)]⟩
        2)[0]? = some 3 ∧
    (PrescribedController.computeControls ⟨["a", "b"], [("a", fun t => t + 1)]⟩
        2)[1]? = some 0 ∧
    ((PrescribedController.prescribeControlForActuator
        ⟨["a", "b"], [("a", fun t => t + 1)]⟩ "b" (fun _ => 5)).computeControls
        2)[1]? = some 5 := by
  have h := computeControls_prescribed_spec
    ⟨["a", "b"], [("a", fun t => t + 1)]⟩ 2
  refine ⟨?_, ?_, ?_, ?_⟩
  · rw [h.1]; rfl
  · have h0 := h.2.1 0 "a" rfl
    rw [h0]
    norm_num [List.lookup]
  · have h1 := h.2.1 1 "b" rfl
    rw [h1]
    simp [List.lookup]
  · exact h.2.2 "b" (fun _ => 5) 1 rfl

/-- Modelled from the spec: the `SynergyController` used by
`exampleMocoInverse.cpp` (its implementation is not part of the excerpt; the
example only constructs it via `addActuator` / `addSynergyVector`). It holds
the controlled actuators in order and one synergy vector per channel, each
vector carrying one weight per controlled actuator. -/
structure SynergyController where
  actuators : List String
  synergyVectors : List (List ℚ)

/-- Accumulates the scaled synergy vectors of a list of
(excitation, synergy vector) channel pairs into a control vector of the given
length, starting from the zero vector and adding each channel's contribution
entrywise. -/
def synergyCombine (m : ℕ) : List (ℚ × List ℚ) → List ℚ
  | [] => List.replicate m 0
  | (e, v) :: rest => List.zipWith (fun x acc => e * x + acc) v (synergyCombine m rest)

/-- Modelled from the spec: `SynergyController::computeControls` expands the
externally supplied synergy excitations through the channels' synergy
vectors: each channel contributes its excitation times its synergy vector,
and the contributions are summed entrywise with no clamping or saturation. -/
def SynergyController.computeControls (c : SynergyController)
    (excitations : List ℚ) : List ℚ :=
  synergyCombine c.actuators.length (excitations.zip c.synergyVectors)

lemma synergyCombine_length (m : ℕ) (l : List (ℚ × List ℚ))
    (h : ∀ p ∈ l, (p.2 : List ℚ).length = m) :
    (synergyCombine m l).length = m := by
  induction l with
  | nil => simp [synergyCombine]
  | cons hd tl ih =>
    obtain ⟨e, v⟩ := hd
    have hv : v.length = m := h (e, v) (List.mem_cons_self _ _)
    have htl : ∀ p ∈ tl, (p.2 : List ℚ).length = m :=
      fun p hp => h p (List.mem_cons_of_mem _ hp)
    simp [synergyCombine, hv, ih htl]

lemma synergyCombine_getElem (m : ℕ) (l : List (ℚ × List ℚ))
    (h : ∀ p ∈ l, (p.2 : List ℚ).length = m) (j : ℕ) (hj : j < m) :
    (synergyCombine m l)[j]? =
      some ((l.map (fun p => p.1 * p.2.getD j 0)).sum) := by
  induction l with
  | nil =>
    simp [synergyCombine, List.getElem?_replicate, hj]
  | cons hd tl ih =>
    obtain ⟨e, v⟩ := hd
    have hv : v.length = m := h (e, v) (List.mem_cons_self _ _)
    have htl : ∀ p ∈ tl, (p.2 : List ℚ).length = m :=
      fun p hp => h p (List.mem_cons_of_mem _ hp)
    have hrec := ih htl
    have hvj : v[j]? = some (v.getD j 0) := by
      rw [List.getD_eq_getElem?_getD, List.getElem?_eq_getElem (by omega)]
      simp
    simp only [synergyCombine, List.getElem?_zipWith, hvj, hrec, List.map_cons,
      List.sum_cons]

lemma zip_map_sum_eq (exc : List ℚ) (vs : List (List ℚ)) (j : ℕ)
    (hlen : exc.length = vs.length) :
    ((exc.zip vs).map (fun p => p.1 * p.2.getD j 0)).sum =
      ∑ k ∈ Finset.range vs.length,
        exc.getD k 0 * (vs.getD k []).getD j 0 := by
  induction exc generalizing vs with
  | nil =>
    cases vs with
    | nil => simp
    | cons v vtl => simp at hlen
  | cons e etl ih =>
    cases vs with
    | nil => simp at hlen
    | cons v vtl =>
      have hlen2 : etl.length = vtl.length := by simpa using hlen
      simp only [List.zip_cons_cons, List.map_cons, List.sum_cons,
        List.length_cons]
      rw [Finset.sum_range_succ']
      simp only [List.getD_cons_succ, List.getD_cons_zero]
      rw [ih vtl hlen2]
      ring

/-- C6: for a synergy controller whose channels each carry one weight per
controlled actuator and whose excitation input has one value per channel,
computeControls returns one control per actuator, and the control for
actuator j is the sum over channels k of excitation k times weight j of
synergy vector k — a pure linear map with no clamping, so excitations outside
[0, 1] propagate unchanged into the controls. -/
theorem computeControls_synergy_spec (c : SynergyController) (exc : List ℚ)
    (hlen : exc.length = c.synergyVectors.length)
    (hv : ∀ v ∈ c.synergyVectors, (v : List ℚ).length = c.actuators.length) :
    (c.computeControls exc).length = c.actuators.length ∧
    ∀ j, j < c.actuators.length →
      (c.computeControls exc)[j]? =
        some (∑ k ∈ Finset.range c.synergyVectors.length,
          exc.getD k 0 * (c.synergyVectors.getD k []).getD j 0) := by
  have hmem : ∀ p ∈ exc.zip c.synergyVectors,
      (p.2 : List ℚ).length = c.actuators.length := by
    intro p hp
    exact hv p.2 (List.of_mem_zip hp).2
  constructor
  · exact synergyCombine_length _ _ hmem
  · intro j hj
    rw [SynergyController.computeControls, synergyCombine_getElem _ _ hmem j hj,
      zip_map_sum_eq exc c.synergyVectors j hlen]

/-- C6 witness: the spec's concrete scenario, 2 actuators, 1 channel with
synergy vector [0.3, 0.7] and excitation 2.0: the control vector is the
unclamped [0.6, 1.4]. -/
theorem computeControls_synergy_spec_witness :
    ([2] : List ℚ).length = ([[3/10, 7/10]] : List (List ℚ)).length ∧
    (∀ v ∈ ([[3/10, 7/10]] : List (List ℚ)), v.length = 2) ∧
    SynergyController.computeControls ⟨["a", "b"], [[3/10, 7/10]]⟩ [2] =
      [3/5, 7/5] ∧
    (SynergyController.computeControls ⟨["a", "b"], [[3/10, 7/10]]⟩ [2])[1]? =
      some (∑ k ∈ Finset.range 1,
        ([2] : List ℚ).getD k 0 *
          (([[3/10, 7/10]] : List (List ℚ)).getD k []).getD 1 0) := by
  refine ⟨rfl, ?_, ?_, ?_⟩
  · intro v hvv
    simp only [List.mem_singleton] at hvv
    rw [hvv]; rfl
  · show synergyCombine 2 [((2 : ℚ), [3/10, 7/10])] = [3/5, 7/5]
    simp [synergyCombine]
    norm_num
  · exact (computeControls_synergy_spec ⟨["a", "b"], [[3/10, 7/10]]⟩ [2] rfl
      (by intro v hvv; simp only [List.mem_singleton] at hvv; rw [hvv]; rfl)).2 1
      (by norm_num)

/-- Squared reconstruction error of a candidate factorization W, H of V. -/
def errSq {T M K : ℕ} (V : Matrix (Fin T) (Fin M) ℚ)
    (W : Matrix (Fin T) (Fin K) ℚ) (H : Matrix (Fin K) (Fin M) ℚ) : ℚ :=
  ∑ i, ∑ j, (V i j - (W * H) i j) ^ 2

/-- Modelled from the spec: the H half of one multiplicative-update iteration
of the non-negative matrix factorizer (the implementation of
`factorizeMatrixNonNegative` is not part of the excerpt; the example only
calls it). H is rescaled entrywise by the ratio of the corresponding entries
of transpose(W) * V and transpose(W) * W * H, with the small positive floor
delta added to the denominator. -/
def updateH {T M K : ℕ} (V : Matrix (Fin T) (Fin M) ℚ)
    (W : Matrix (Fin T) (Fin K) ℚ) (H : Matrix (Fin K) (Fin M) ℚ) (δ : ℚ) :
    Matrix (Fin K) (Fin M) ℚ :=
  Matrix.of fun k j =>
    H k j * ((W.transpose * V) k j / ((W.transpose * W * H) k j + δ))

/-- Modelled from the spec: the W half of one multiplicative-update iteration.
W is rescaled entrywise by the ratio of the corresponding entries of
V * transpose(H) and W * H * transpose(H), with the floor delta added to the
denominator. -/
def updateW {T M K : ℕ} (V : Matrix (Fin T) (Fin M) ℚ)
    (W : Matrix (Fin T) (Fin K) ℚ) (H : Matrix (Fin K) (Fin M) ℚ) (δ : ℚ) :
    Matrix (Fin T) (Fin K) ℚ :=
  Matrix.of fun i k =>
    W i k * ((V * H.transpose) i k / ((W * H * H.transpose) i k + δ))

/-- Modelled from the spec: one full multiplicative-update iteration, the H
rescale followed by the W rescale against the updated H. -/
def nmfStep {T M K : ℕ} (V : Matrix (Fin T) (Fin M) ℚ) (δ : ℚ)
    (p : Matrix (Fin T) (Fin K) ℚ × Matrix (Fin K) (Fin M) ℚ) :
    Matrix (Fin T) (Fin K) ℚ × Matrix (Fin K) (Fin M) ℚ :=
  let H1 := updateH V p.1 p.2 δ
  (updateW V p.1 H1 δ, H1)

/-- Modelled from the spec: the factorizer's iteration loop. Up to the given
number of iterations it applies `nmfStep`, keeps track of the best (lowest
squared reconstruction error) factors found so far, and stops early when the
relative decrease in reconstruction error falls below the tolerance; reaching
the iteration cap is not an error, the best factors found are returned. -/
def nmfLoop {T M K : ℕ} (V : Matrix (Fin T) (Fin M) ℚ) (ε δ : ℚ) :
    ℕ → Matrix (Fin T) (Fin K) ℚ × Matrix (Fin K) (Fin M) ℚ →
      Matrix (Fin T) (Fin K) ℚ × Matrix (Fin K) (Fin M) ℚ →
      Matrix (Fin T) (Fin K) ℚ × Matrix (Fin K) (Fin M) ℚ
  | 0, _, best => best
  | n + 1, cur, best =>
    let next := nmfStep V δ cur
    let best1 :=
      if errSq V next.1 next.2 < errSq V best.1 best.2 then next else best
    if (errSq V cur.1 cur.2 - errSq V next.1 next.2) / errSq V cur.1 cur.2 < ε
    then best1
    else nmfLoop V ε δ n next best1

/-- Modelled from the spec: `factorizeMatrixNonNegative` decomposes the
non-negative matrix V into non-negative factors W (T x K) and H (K x M) by
multiplicative updates, running at most N iterations with convergence
tolerance epsilon and denominator floor delta. The random non-negative
initial seeds of the real routine are taken as explicit arguments W0, H0 so
that runs are reproducible. -/
def factorizeMatrixNonNegative {T M K : ℕ} (V : Matrix (Fin T) (Fin M) ℚ)
    (N : ℕ) (ε δ : ℚ) (W0 : Matrix (Fin T) (Fin K) ℚ)
    (H0 : Matrix (Fin K) (Fin M) ℚ) :
    Matrix (Fin T) (Fin K) ℚ × Matrix (Fin K) (Fin M) ℚ :=
  nmfLoop V ε δ N (W0, H0) (W0, H0)

lemma mul_entry_nonneg {a b c : ℕ} (A : Matrix (Fin a) (Fin b) ℚ)
    (B : Matrix (Fin b) (Fin c) ℚ) (hA : ∀ i j, 0 ≤ A i j)
    (hB : ∀ i j, 0 ≤ B i j) : ∀ i j, 0 ≤ (A * B) i j := by
  intro i j
  rw [Matrix.mul_apply]
  exact Finset.sum_nonneg fun k _ => mul_nonneg (hA i k) (hB k j)

lemma transpose_entry_nonneg {a b : ℕ} (A : Matrix (Fin a) (Fin b) ℚ)
    (hA : ∀ i j, 0 ≤ A i j) : ∀ i j, 0 ≤ A.transpose i j :=
  fun i j => hA j i

lemma updateH_nonneg {T M K : ℕ} (V : Matrix (Fin T) (Fin M) ℚ)
    (W : Matrix (Fin T) (Fin K) ℚ) (H : Matrix (Fin K) (Fin M) ℚ) (δ : ℚ)
    (hδ : 0 ≤ δ) (hV : ∀ i j, 0 ≤ V i j) (hW : ∀ i j, 0 ≤ W i j)
    (hH : ∀ i j, 0 ≤ H i j) : ∀ i j, 0 ≤ updateH V W H δ i j := by
  intro k j
  simp only [updateH, Matrix.of_apply]
  refine mul_nonneg (hH k j) (div_nonneg ?_ ?_)
  · exact mul_entry_nonneg W.transpose V (transpose_entry_nonneg W hW) hV k j
  · refine add_nonneg ?_ hδ
    exact mul_entry_nonneg (W.transpose * W) H
      (mul_entry_nonneg W.transpose W (transpose_entry_nonneg W hW) hW) hH k j

lemma updateW_nonneg {T M K : ℕ} (V : Matrix (Fin T) (Fin M) ℚ)
    (W : Matrix (Fin T) (Fin K) ℚ) (H : Matrix (Fin K) (Fin M) ℚ) (δ : ℚ)
    (hδ : 0 ≤ δ) (hV : ∀ i j, 0 ≤ V i j) (hW : ∀ i j, 0 ≤ W i j)
    (hH : ∀ i j, 0 ≤ H i j) : ∀ i j, 0 ≤ updateW V W H δ i j := by
  intro i k
  simp only [updateW, Matrix.of_apply]
  refine mul_nonneg (hW i k) (div_nonneg ?_ ?_)
  · exact mul_entry_nonneg V H.transpose hV (transpose_entry_nonneg H hH) i k
  · refine add_nonneg ?_ hδ
    exact mul_entry_nonneg (W * H) H.transpose (mul_entry_nonneg W H hW hH)
      (transpose_entry_nonneg H hH) i k

lemma nmfStep_nonneg {T M K : ℕ} (V : Matrix (Fin T) (Fin M) ℚ) (δ : ℚ)
    (p : Matrix (Fin T) (Fin K) ℚ × Matrix (Fin K) (Fin M) ℚ)
    (hδ : 0 ≤ δ) (hV : ∀ i j, 0 ≤ V i j) (hW : ∀ i j, 0 ≤ p.1 i j)
    (hH : ∀ i j, 0 ≤ p.2 i j) :
    (∀ i j, 0 ≤ (nmfStep V δ p).1 i j) ∧ (∀ i j, 0 ≤ (nmfStep V δ p).2 i j) := by
  have hH1 := updateH_nonneg V p.1 p.2 δ hδ hV hW hH
  exact ⟨updateW_nonneg V p.1 (updateH V p.1 p.2 δ) δ hδ hV hW hH1, hH1⟩

lemma nmfLoop_nonneg {T M K : ℕ} (V : Matrix (Fin T) (Fin M) ℚ) (ε δ : ℚ)
    (hδ : 0 ≤ δ) (hV : ∀ i j, 0 ≤ V i j) :
    ∀ (n : ℕ) (cur best : Matrix (Fin T) (Fin K) ℚ × Matrix (Fin K) (Fin M) ℚ),
      (∀ i j, 0 ≤ cur.1 i j) → (∀ i j, 0 ≤ cur.2 i j) →
      (∀ i j, 0 ≤ best.1 i j) → (∀ i j, 0 ≤ best.2 i j) →
      (∀ i j, 0 ≤ (nmfLoop V ε δ n cur best).1 i j) ∧
      (∀ i j, 0 ≤ (nmfLoop V ε δ n cur best).2 i j) := by
  intro n
  induction n with
  | zero => intro cur best _ _ hb1 hb2; exact ⟨hb1, hb2⟩
  | succ n ih =>
    intro cur best hc1 hc2 hb1 hb2
    have hnext := nmfStep_nonneg V δ cur hδ hV hc1 hc2
    rw [nmfLoop]
    by_cases hb : errSq V (nmfStep V δ cur).1 (nmfStep V δ cur).2 <
        errSq V best.1 best.2
    · simp only [hb, if_true]
      by_cases hs : (errSq V cur.1 cur.2 -
          errSq V (nmfStep V δ cur).1 (nmfStep V δ cur).2) /
          errSq V cur.1 cur.2 < ε
      · simp only [hs, if_true]
        exact hnext
      · simp only [hs, if_false]
        exact ih (nmfStep V δ cur) (nmfStep V δ cur) hnext.1 hnext.2
          hnext.1 hnext.2
    · simp only [hb, if_false]
      by_cases hs : (errSq V cur.1 cur.2 -
          errSq V (nmfStep V δ cur).1 (nmfStep V δ cur).2) /
          errSq V cur.1 cur.2 < ε
      · simp only [hs, if_true]
        exact ⟨hb1, hb2⟩
      · simp only [hs, if_false]
        exact ih (nmfStep V δ cur) best hnext.1 hnext.2 hb1 hb2

/-- C7: for every entrywise non-negative input matrix V, iteration cap,
tolerance, positive denominator floor, and entrywise non-negative seed
factors, every entry of both factors returned by factorizeMatrixNonNegative
is non-negative: the factorization never introduces a negative entry. -/
theorem factorize_nonneg_spec {T M K : ℕ} (V : Matrix (Fin T) (Fin M) ℚ)
    (N : ℕ) (ε δ : ℚ) (W0 : Matrix (Fin T) (Fin K) ℚ)
    (H0 : Matrix (Fin K) (Fin M) ℚ) (hδ : 0 < δ)
    (hV : ∀ i j, 0 ≤ V i j) (hW0 : ∀ i j, 0 ≤ W0 i j)
    (hH0 : ∀ i j, 0 ≤ H0 i j) :
    (∀ i j, 0 ≤ (factorizeMatrixNonNegative V N ε δ W0 H0).1 i j) ∧
    (∀ i j, 0 ≤ (factorizeMatrixNonNegative V N ε δ W0 H0).2 i j) :=
  nmfLoop_nonneg V ε δ hδ.le hV N (W0, H0) (W0, H0) hW0 hH0 hW0 hH0

/-- C7 witness: a concrete 2x2 factorization at rank 1 (V with entries
1, 1/2, 1/2, 1, seeds of ones, 3 iterations, floor 1/10) has non-negative
entries in both returned factors. -/
theorem factorize_nonneg_spec_witness :
    (0 : ℚ) < 1/10 ∧
    (∀ i j, 0 ≤ (Matrix.of (fun i j : Fin 2 =>
      if i = j then (1 : ℚ) else 1/2) : Matrix (Fin 2) (Fin 2) ℚ) i j) ∧
    (∀ i j, 0 ≤
      (Matrix.of (fun _ _ => (1 : ℚ)) : Matrix (Fin 2) (Fin 1) ℚ) i j) ∧
    (∀ i j, 0 ≤
      (Matrix.of (fun _ _ => (1 : ℚ)) : Matrix (Fin 1) (Fin 2) ℚ) i j) ∧
    (∀ i j, 0 ≤ (factorizeMatrixNonNegative
      (Matrix.of (fun i j : Fin 2 => if i = j then (1 : ℚ) else 1/2))
      3 (1/1000000) (1/10)
      (Matrix.of (fun _ _ => (1 : ℚ)) : Matrix (Fin 2) (Fin 1) ℚ)
      (Matrix.of (fun _ _ => (1 : ℚ)) : Matrix (Fin 1) (Fin 2) ℚ)).1 i j) ∧
    (∀ i j, 0 ≤ (factorizeMatrixNonNegative
      (Matrix.of (fun i j : Fin 2 => if i = j then (1 : ℚ) else 1/2))
      3 (1/1000000) (1/10)
      (Matrix.of (fun _ _ => (1 : ℚ)) : Matrix (Fin 2) (Fin 1) ℚ)
      (Matrix.of (fun _ _ => (1 : ℚ)) : Matrix (Fin 1) (Fin 2) ℚ)).2 i j) := by
  have h := factorize_nonneg_spec
    (Matrix.of (fun i j : Fin 2 => if i = j then (1 : ℚ) else 1/2))
    3 (1/1000000) (1/10)
    (Matrix.of (fun _ _ => (1 : ℚ)) : Matrix (Fin 2) (Fin 1) ℚ)
    (Matrix.of (fun _ _ => (1 : ℚ)) : Matrix (Fin 1) (Fin 2) ℚ)
    (by norm_num)
    (by intro i j; simp only [Matrix.of_apply]; split <;> norm_num)
    (by intro i j; simp only [Matrix.of_apply]; norm_num)
    (by intro i j; simp only [Matrix.of_apply]; norm_num)
  refine ⟨by norm_num, ?_, ?_, ?_, h.1, h.2⟩
  · intro i j; simp only [Matrix.of_apply]; split <;> norm_num
  · intro i j; simp only [Matrix.of_apply]; norm_num
  · intro i j; simp only [Matrix.of_apply]; norm_num

/-- C8 counterexample: one multiplicative-update iteration can increase the
squared reconstruction error. For the 1x1 non-negative input V = 21/20 with
seeds W = H = 1 and floor 1/10, the error before the step is 1/400, and the
floor added to the denominators drags both rescales below the exact ratio,
overshooting the minimizer: the error after the step is larger. -/
theorem nmf_error_can_increase :
    errSq (Matrix.of fun _ _ => (21/20 : ℚ))
      (nmfStep (Matrix.of fun _ _ => (21/20 : ℚ)) (1/10)
        (((Matrix.of fun _ _ => (1 : ℚ)) : Matrix (Fin 1) (Fin 1) ℚ),
         ((Matrix.of fun _ _ => (1 : ℚ)) : Matrix (Fin 1) (Fin 1) ℚ))).1
      (nmfStep (Matrix.of fun _ _ => (21/20 : ℚ)) (1/10)
        (((Matrix.of fun _ _ => (1 : ℚ)) : Matrix (Fin 1) (Fin 1) ℚ),
         ((Matrix.of fun _ _ => (1 : ℚ)) : Matrix (Fin 1) (Fin 1) ℚ))).2 >
    errSq (Matrix.of fun _ _ => (21/20 : ℚ))
      ((Matrix.of fun _ _ => (1 : ℚ)) : Matrix (Fin 1) (Fin 1) ℚ)
      ((Matrix.of fun _ _ => (1 : ℚ)) : Matrix (Fin 1) (Fin 1) ℚ) := by
  simp only [errSq, nmfStep, updateH, updateW, Matrix.mul_apply,
    Matrix.transpose_apply, Matrix.of_apply, Fin.sum_univ_one]
  norm_num

lemma nmfLoop_errSq_le {T M K : ℕ} (V : Matrix (Fin T) (Fin M) ℚ) (ε δ : ℚ) :
    ∀ (n : ℕ)
      (cur best : Matrix (Fin T) (Fin K) ℚ × Matrix (Fin K) (Fin M) ℚ),
      errSq V (nmfLoop V ε δ n cur best).1 (nmfLoop V ε δ n cur best).2 ≤
        errSq V best.1 best.2 := by
  intro n
  induction n with
  | zero => intro cur best; exact le_refl _
  | succ n ih =>
    intro cur best
    rw [nmfLoop]
    by_cases hb : errSq V (nmfStep V δ cur).1 (nmfStep V δ cur).2 <
        errSq V best.1 best.2
    · simp only [hb, if_true]
      by_cases hs : (errSq V cur.1 cur.2 -
          errSq V (nmfStep V δ cur).1 (nmfStep V δ cur).2) /
          errSq V cur.1 cur.2 < ε
      · simp only [hs, if_true]
        exact le_of_lt hb
      · simp only [hs, if_false]
        exact le_trans (ih (nmfStep V δ cur) (nmfStep V δ cur)) (le_of_lt hb)
    · simp only [hb, if_false]
      by_cases hs : (errSq V cur.1 cur.2 -
          errSq V (nmfStep V δ cur).1 (nmfStep V δ cur).2) /
          errSq V cur.1 cur.2 < ε
      · simp only [hs, if_true]
        exact le_refl _
      · simp only [hs, if_false]
        exact ih (nmfStep V δ cur) best

/-- C8 amended: the squared reconstruction error is not necessarily
non-increasing from one multiplicative-update iteration to the next — the
positive floor added to the denominators can push an update past the
minimizer and increase the error; what holds instead is that the factorizer
tracks and returns the best factors found, so the squared reconstruction
error of the returned factors never exceeds that of the initial (seed)
factors. -/
theorem factorize_best_error_spec {T M K : ℕ} (V : Matrix (Fin T) (Fin M) ℚ)
    (N : ℕ) (ε δ : ℚ) (W0 : Matrix (Fin T) (Fin K) ℚ)
    (H0 : Matrix (Fin K) (Fin M) ℚ) :
    errSq V (factorizeMatrixNonNegative V N ε δ W0 H0).1
        (factorizeMatrixNonNegative V N ε δ W0 H0).2 ≤
      errSq V W0 H0 :=
  nmfLoop_errSq_le V ε δ N (W0, H0) (W0, H0)

end OpenSimModel
